import Mathlib

/-!
# Verification of the qp storage engine core

A shallow embedding, in Lean 4, of the core data structures and operations of
the qp embedded key-value store (disk manager, slotted page, B+-tree branch
and leaf nodes, and the B+-tree access layer), translated from the Rust
sources (src/disk.rs, src/slotted.rs, src/btree/branch.rs, src/btree/leaf.rs,
src/btree.rs, src/executor.rs), together with proofs and refutations of the
specification's claims about them.

Modelling conventions:
* an 8-byte key compared lexicographically is modelled as a natural number
  (the big-endian u64 value); byte strings are lists of naturals;
* `u16`/`u64` arithmetic is modelled over `Nat`/`Int`; wherever the source's
  fixed-width arithmetic could overflow (a `u16` addition, the `i16` length
  difference in `Slotted::realloc`), the affected quantities are kept inside
  the exact range by explicit hypotheses or by the operation-application
  guards, mirroring the fact that in the source an overflow is a fatal
  (panicking) programming error, not a reachable behaviour;
* an in-place mutation becomes explicit state passing: an operation takes the
  state and returns the new state (paired with the source's return value);
* a Rust `assert!` failure, `todo!`, or out-of-bounds index is a panic; panics
  are modelled either by guards that leave the state unchanged (for the
  slotted-page operation sequences, where a panic aborts the program and so
  never yields a successor state) or by an explicit `panicked` outcome (for
  the executor);
* the buffer pool is modelled as a page store: a map from page ids to pages;
  the per-page latches disappear, except that the single non-blocking latch
  acquisition in the insert path (on the right sibling of a splitting leaf)
  is modelled by a boolean oracle `latchOk` saying whether that try-latch
  succeeds;
* recursive page-graph traversals take an explicit fuel argument; running out
  of fuel is reported as the (buffer-layer) error `fault`.
-/

namespace QP

/-! Base types, all modelled over `Nat`: a byte of a stored value; a `Key`
(`[u8; 8]` compared lexicographically, i.e. the big-endian u64 value); a
`PageId` (u64); values are `List Nat` (byte strings). -/

/-- `PAGE_SIZE` from src/disk.rs. -/
def PAGE_SIZE : Nat := 4096

/-! ## DiskManager (src/disk.rs) -/

/-- The lone error kind of `std::io::Result` as far as `DiskManager::new` is
concerned (the `metadata()` call; surfaced verbatim). -/
inductive IoError where
  | ioFailure
deriving DecidableEq, Repr

/-- `DiskManager`: the state after `new`/`open` that matters to the claims is
`next_page_id` (the `File` handle itself carries no further logic). -/
structure DiskManager where
  nextPageId : Nat
deriving DecidableEq, Repr

/-- `DiskManager::new(data_file)`: computes
`next_page_id = file_size / PAGE_SIZE` (integer division) and succeeds.
`fileSize` stands for `data_file.metadata()?.len()`; the function performs no
check of the file size whatsoever. `DiskManager::open` opens or creates the
file and delegates to `new`, adding no check either. -/
def DiskManager.new (fileSize : Nat) : Except IoError DiskManager :=
  .ok { nextPageId := fileSize / PAGE_SIZE }

/-- `DiskManager::allocate_page`: returns the current `next_page_id`, then
increments it. -/
def DiskManager.allocatePage (d : DiskManager) : Nat × DiskManager :=
  (d.nextPageId, { nextPageId := d.nextPageId + 1 })

/-! ## Slotted page (src/slotted.rs)

`Slotted` is a header (`num_slots`, `free_space_offset`, both u16 BE) in front
of a payload byte array: a directory of 4-byte pointers `(offset, len)`
growing forward from payload offset 0, and a heap growing backward from the
end.  The model splits the payload into the directory (a list of pointers;
`num_slots` is its length — the source keeps the two in sync at every exit
point) and the heap bytes (a list of length `capacity` standing for the whole
payload; directory bytes inside it are shadowed by the pointer list).  All
offsets are payload-relative exactly as in the source. -/

/-- `Pointer { offset: u16, len: u16 }`. -/
structure Pointer where
  offset : Nat
  len : Nat
deriving DecidableEq, Repr

/-- `size_of::<Pointer>() = 4`. -/
def pointerSize : Nat := 4

/-- The `Slotted` state. `capacity` is `payload.len()`. -/
structure Slotted where
  capacity : Nat
  freeSpaceOffset : Nat
  pointers : List Pointer
  heap : List Nat
deriving DecidableEq, Repr

namespace Slotted

/-- `num_slots()`. -/
def numSlots (s : Slotted) : Nat := s.pointers.length

/-- `free_space() = free_space_offset - num_slots * size_of::<Pointer>()`
(u16 arithmetic; never underflows on well-formed states). -/
def freeSpace (s : Slotted) : Nat := s.freeSpaceOffset - s.numSlots * pointerSize

/-- `initialize()`: `num_slots = 0`, `free_space_offset = payload.len()`.
(Source name `initialize`; renamed since the word is reserved here.) -/
def initState (s : Slotted) : Slotted :=
  { s with freeSpaceOffset := s.capacity, pointers := [] }

/-- `slice::copy_within(src_start..src_end, dest)` on the heap bytes:
memmove semantics, reading from the pre-copy contents. -/
def copyWithin (l : List Nat) (srcStart srcEnd dest : Nat) : List Nat :=
  (List.range l.length).map fun i =>
    if dest ≤ i ∧ i < dest + (srcEnd - srcStart) then l.getD (i - dest + srcStart) 0
    else l.getD i 0

/-- `allocate(index, element_len)`: fails (returning `false`, no state change)
iff `free_space() < element_len + 4`; otherwise carves `element_len` bytes at
`free_space_offset - element_len`, shifts the directory tail right and writes
the new pointer at `index`. -/
def allocate (s : Slotted) (index elementLen : Nat) : Bool × Slotted :=
  if s.freeSpace < elementLen + pointerSize then (false, s)
  else
    let elementOffset := s.freeSpaceOffset - elementLen
    (true,
      { s with
        freeSpaceOffset := elementOffset
        pointers := s.pointers.insertIdx index ⟨elementOffset, elementLen⟩ })

/-- `realloc(index, new_element_len)`; requires `index < num_slots` (a failed
`assert!` aborts the source program).  `diff` is the `i16` length difference,
kept exact over `Int`. -/
def realloc (s : Slotted) (index newElementLen : Nat) : Bool × Slotted :=
  let org := s.pointers.getD index ⟨0, 0⟩
  let diff : Int := (newElementLen : Int) - (org.len : Int)
  if diff = 0 then (true, s)
  else if 0 < diff ∧ (s.freeSpace : Int) < diff then (false, s)
  else
    let newFso : Nat := ((s.freeSpaceOffset : Int) - diff).toNat
    let heap' := copyWithin s.heap s.freeSpaceOffset org.offset newFso
    let shifted := s.pointers.map fun p =>
      if p.offset ≤ org.offset then { p with offset := ((p.offset : Int) - diff).toNat }
      else p
    let tgt := shifted.getD index ⟨0, 0⟩
    let tgt' : Pointer :=
      { offset := if newElementLen = 0 then newFso else tgt.offset, len := newElementLen }
    (true,
      { s with
        freeSpaceOffset := newFso
        heap := heap'
        pointers := shifted.set index tgt' })

/-- `delete(index)`: `realloc(index, 0)` (always succeeds), then the source
shifts the pointer range `[index, num_slots)` one slot to the *right*
(`copy_within(range(index..num_slots), offset(index + 1))`) and decrements
`num_slots`; so slot position `p` afterwards holds the old position `p` for
`p ≤ index` and the old position `p - 1` for `p > index`.  (For
`index = num_slots - 1` — the only call site inside the tree — this is exactly
removal of the last slot.) -/
def delete (s : Slotted) (index : Nat) : Slotted :=
  let s1 := (s.realloc index 0).2
  let q := s1.pointers
  { s1 with
    pointers :=
      (List.range (q.length - 1)).map fun p =>
        if p ≤ index then q.getD p ⟨0, 0⟩ else q.getD (p - 1) ⟨0, 0⟩ }

/-- `reverse()`: reverses the slot directory in place; heap bytes untouched. -/
def reverse (s : Slotted) : Slotted :=
  { s with pointers := s.pointers.reverse }

/-- Writing through `IndexMut<u16>` (`slotted[index] = …`): overwrites the
`len` bytes at `[offset, offset + len)` of the heap in place with `bytes`
(the borrowed slice has exactly length `len`, so only those bytes change;
`bytes` is truncated or zero-padded to `len` to model the mutable borrow). -/
def writeSlot (s : Slotted) (index : Nat) (bytes : List Nat) : Slotted :=
  let p := s.pointers.getD index ⟨0, 0⟩
  { s with
    heap :=
      (List.range s.heap.length).map fun i =>
        if p.offset ≤ i ∧ i < p.offset + p.len then bytes.getD (i - p.offset) 0
        else s.heap.getD i 0 }

/-- One public slotted-page operation (the universe quantified over in the
well-formedness claim). -/
inductive Op where
  | allocate (index len : Nat)
  | realloc (index newLen : Nat)
  | delete (index : Nat)
  | reverse
  | writeSlot (index : Nat) (bytes : List Nat)
deriving DecidableEq, Repr

/-- Whether an operation's arguments are admissible: the source `assert!`s the
index bounds (a violation aborts the program, leaving no successor state),
and a length of `2^15` or more overflows the source's `u16`/`i16` length
arithmetic, which likewise panics (in a debug build) before completing.  An
inadmissible operation therefore has no resulting state; `applyOp` models it
as the identity so that sequences stay total. -/
def Op.admissible (s : Slotted) : Op → Bool
  | .allocate index len => index ≤ s.numSlots && len < 2 ^ 15
  | .realloc index newLen => index < s.numSlots && newLen < 2 ^ 15
  | .delete index => index < s.numSlots
  | .reverse => true
  | .writeSlot index _ => index < s.numSlots

/-- Apply one operation (discarding the `bool` result). -/
def applyOp (s : Slotted) (op : Op) : Slotted :=
  if op.admissible s then
    match op with
    | .allocate index len => (s.allocate index len).2
    | .realloc index newLen => (s.realloc index newLen).2
    | .delete index => s.delete index
    | .reverse => s.reverse
    | .writeSlot index bytes => s.writeSlot index bytes
  else s

/-- Apply a sequence of operations. -/
def applyOps (s : Slotted) (ops : List Op) : Slotted :=
  ops.foldl applyOp s

/-- The well-formedness invariant exactly as claimed: the free-space offset is
at least the end of the slot directory, every slot's byte range lies within
`[free_space_offset, capacity)`, and the ranges of two distinct slots are
disjoint. -/
def Inv (s : Slotted) : Prop :=
  s.numSlots * pointerSize ≤ s.freeSpaceOffset ∧
  (∀ i, i < s.numSlots →
    s.freeSpaceOffset ≤ (s.pointers.getD i ⟨0, 0⟩).offset ∧
    (s.pointers.getD i ⟨0, 0⟩).offset + (s.pointers.getD i ⟨0, 0⟩).len ≤ s.capacity) ∧
  (∀ i j, i < s.numSlots → j < s.numSlots → i ≠ j →
    ∀ x, ((s.pointers.getD i ⟨0, 0⟩).offset ≤ x ∧
            x < (s.pointers.getD i ⟨0, 0⟩).offset + (s.pointers.getD i ⟨0, 0⟩).len) →
      ¬ ((s.pointers.getD j ⟨0, 0⟩).offset ≤ x ∧
            x < (s.pointers.getD j ⟨0, 0⟩).offset + (s.pointers.getD j ⟨0, 0⟩).len))

/-- The strengthened (inductive) invariant: additionally the byte ranges of
any two distinct slots are *ordered* (one ends at or before the other
starts), the free-space offset is within the page, and the capacity fits the
source's `i16` intermediate arithmetic. -/
def WF (s : Slotted) : Prop :=
  s.capacity < 2 ^ 15 ∧
  s.numSlots * pointerSize ≤ s.freeSpaceOffset ∧
  s.freeSpaceOffset ≤ s.capacity ∧
  (∀ i, i < s.numSlots →
    s.freeSpaceOffset ≤ (s.pointers.getD i ⟨0, 0⟩).offset ∧
    (s.pointers.getD i ⟨0, 0⟩).offset + (s.pointers.getD i ⟨0, 0⟩).len ≤ s.capacity) ∧
  (∀ i j, i < s.numSlots → j < s.numSlots → i ≠ j →
    (s.pointers.getD i ⟨0, 0⟩).offset + (s.pointers.getD i ⟨0, 0⟩).len ≤
        (s.pointers.getD j ⟨0, 0⟩).offset ∨
      (s.pointers.getD j ⟨0, 0⟩).offset + (s.pointers.getD j ⟨0, 0⟩).len ≤
        (s.pointers.getD i ⟨0, 0⟩).offset)

end Slotted

/-! ## Branch node (src/btree/branch.rs)

A fixed-size array of pairs `(Key[8], PageId[8])` after a 4-byte header
holding `num_pairs`.  Pair 0's key is unused (it plays the role of `-∞`); its
child is the leftmost subtree.  The model keeps the live pairs as a list
(`num_pairs` is its length) plus the payload byte length, which only feeds
`max_pairs`. -/

/-- `size_of::<Pair>() = 16`. -/
def pairSize : Nat := 16

/-- A branch node.  `payloadLen` is the byte length of the body after the
branch header (4088 for a real page). -/
structure Branch where
  payloadLen : Nat
  pairs : List (Nat × Nat)
deriving DecidableEq, Repr

namespace Branch

/-- `num_pairs()`. -/
def numPairs (b : Branch) : Nat := b.pairs.length

/-- `max_pairs() = payload.len() / size_of::<Pair>()`. -/
def maxPairs (b : Branch) : Nat := b.payloadLen / pairSize

/-- `pair(i).key()` (default 0 stands for reading zeroed page bytes). -/
def pairKey (b : Branch) (i : Nat) : Nat := (b.pairs.getD i (0, 0)).1

/-- `pair(i).child()`. -/
def pairChild (b : Branch) (i : Nat) : Nat := (b.pairs.getD i (0, 0)).2

/-- The branchless binary-search loop of `find`, made structural with a fuel
argument (`size` strictly decreases, so fuel `size` suffices):
`while size > 1 { half = size/2; mid = base+half;
  base = if pair(mid).key() > key { base } else { mid }; size -= half }`. -/
def findLoop (b : Branch) (key : Nat) : Nat → Nat → Nat → Nat
  | 0, base, _ => base
  | fuel + 1, base, size =>
    if size ≤ 1 then base
    else
      let half := size / 2
      let mid := base + half
      let base' := if key < b.pairKey mid then base else mid
      findLoop b key fuel base' (size - half)

/-- `find(key)`: binary search over indices `1..num_pairs`, then the final
comparison `cmp = pair(base).key().cmp(&key)`:
equal ⇒ `base`, otherwise `base - (cmp == Greater)`. -/
def find (b : Branch) (key : Nat) : Nat :=
  let size := b.numPairs - 1
  let base := findLoop b key size 1 size
  if b.pairKey base = key then base
  else if key < b.pairKey base then base - 1
  else base

/-- `initialize(key, left_child, right_child)`: `num_pairs = 2`; pair 0 keeps
the zeroed key bytes of the freshly created page and holds `left_child`;
pair 1 is `(key, right_child)`.  (Source name `initialize`.) -/
def initPairs (key : Nat) (leftChild rightChild : Nat) (payloadLen : Nat) : Branch :=
  { payloadLen := payloadLen, pairs := [(0, leftChild), (key, rightChild)] }

/-- `insert(index, key, child)`: shifts `pairs[index..num_pairs)` one to the
right, writes `(key, child)` at `index`, increments `num_pairs`.  The caller
guarantees room. -/
def insert (b : Branch) (index : Nat) (key : Nat) (child : Nat) : Branch :=
  { b with pairs := b.pairs.insertIdx index (key, child) }

/-- `split(new_branch)`: with `mid = num_pairs / 2`, copies
`pairs[mid..num_pairs)` into the new branch (so its `num_pairs` becomes
`num_pairs - mid`), sets this branch's `num_pairs = mid - 1` (keeping only
`pairs[0..mid-1)`), and returns `pairs[mid].key` as the promoted separator.
Result: `(self afterwards, the new branch, the promoted key)`. -/
def split (b : Branch) (payloadLen : Nat) : Branch × Branch × Nat :=
  let n := b.numPairs
  let mid := n / 2
  let midKey := b.pairKey mid
  ({ b with pairs := b.pairs.take (mid - 1) },
   { payloadLen := payloadLen, pairs := b.pairs.drop mid },
   midKey)

end Branch

/-! ## Leaf node (src/btree/leaf.rs)

A leaf is a 16-byte header (`prev_page_id`, `next_page_id`) followed by a
slotted body whose slots are the records, each `key (8 bytes) || value`,
kept in strictly ascending key order.  Throughout its life a leaf drives its
slotted body only through `allocate` (at the binary-search position or at the
end), `realloc`, `delete` of the last slot, and `reverse`; under that
discipline the heap stays packed, so the slotted state is determined by the
record list and the body capacity:
`free_space_offset = capacity - Σ record sizes` and
`free_space() = free_space_offset - 4 * num_records`.  The model therefore
carries the record list directly. -/

/-- Byte size of a record: `size_of::<Key>() + value.len()`. -/
def recordSize (r : Nat × List Nat) : Nat := 8 + r.2.length

/-- The result of `Leaf::find`: `Ok(index)` or `Err(insert_position)`. -/
inductive FindResult where
  | found (index : Nat)
  | notFound (insertPos : Nat)
deriving DecidableEq, Repr

/-- A leaf node.  `capacity` is the byte length of the slotted body's payload
(4072 for a real 4096-byte page: 4096 minus the 4-byte node header, the
16-byte leaf header and the 4-byte slotted header). -/
structure Leaf where
  prevPageId : Option Nat
  nextPageId : Option Nat
  capacity : Nat
  records : List (Nat × List Nat)
deriving DecidableEq, Repr

namespace Leaf

/-- `num_records()`. -/
def numRecords (l : Leaf) : Nat := l.records.length

/-- The slotted body's `free_space_offset` (heap packed against the end). -/
def fso (l : Leaf) : Nat := l.capacity - (l.records.map recordSize).sum

/-- The slotted body's `free_space()`. -/
def freeSpace (l : Leaf) : Nat := l.fso - l.numRecords * pointerSize

/-- `record(index).key()` (default for an out-of-range read). -/
def recKey (l : Leaf) (i : Nat) : Nat := (l.records.getD i (0, [])).1

/-- `max_value_size() = payload.len() / 2 - size_of::<Pointer>() - size_of::<Key>()`. -/
def maxValueSize (l : Leaf) : Nat := l.capacity / 2 - pointerSize - 8

/-- The branchless binary-search loop of `Leaf::find`, fuelled like the
branch's (`base` starts at 0, `size` at `num_records`). -/
def findLoop (l : Leaf) (key : Nat) : Nat → Nat → Nat → Nat
  | 0, base, _ => base
  | fuel + 1, base, size =>
    if size ≤ 1 then base
    else
      let half := size / 2
      let mid := base + half
      let base' := if key < l.recKey mid then base else mid
      findLoop l key fuel base' (size - half)

/-- `find(key) -> Result<u16, u16>`: empty leaf ⇒ `Err(0)`; otherwise binary
search, then `Ok(base)` on an exact hit and
`Err(base + (cmp == Less))` otherwise. -/
def find (l : Leaf) (key : Nat) : FindResult :=
  if l.numRecords = 0 then .notFound 0
  else
    let base := findLoop l key l.numRecords 0 l.numRecords
    if l.recKey base = key then .found base
    else .notFound (base + if l.recKey base < key then 1 else 0)

/-- `get(key)`: binary search; on a hit return the value suffix of the
record. -/
def get (l : Leaf) (key : Nat) : Option (List Nat) :=
  match l.find key with
  | .found i => some (l.records.getD i (0, [])).2
  | .notFound _ => none

/-- `put(key, value)`: on a hit, `realloc` the record (which fails exactly
when the record grows by more than `free_space()`); on a miss, `allocate` a
new slot at the insert position (which fails exactly when
`free_space() < record size + 4`).  Returns `false` with the leaf unchanged
on failure.  (The source first `assert!`s
`value.len() <= max_value_size()`; the theorems about `put` restrict values
accordingly.) -/
def put (l : Leaf) (key : Nat) (value : List Nat) : Bool × Leaf :=
  match l.find key with
  | .found index =>
    let oldLen := recordSize (l.records.getD index (0, []))
    let newLen := 8 + value.length
    if oldLen < newLen ∧ l.freeSpace < newLen - oldLen then (false, l)
    else (true, { l with records := l.records.set index (key, value) })
  | .notFound index =>
    if l.freeSpace < (8 + value.length) + pointerSize then (false, l)
    else (true, { l with records := l.records.insertIdx index (key, value) })

/-- `set_prev_page_id`. -/
def setPrev (l : Leaf) (p : Option Nat) : Leaf := { l with prevPageId := p }

/-- `set_next_page_id`. -/
def setNext (l : Leaf) (p : Option Nat) : Leaf := { l with nextPageId := p }

/-- `push_record` / `push_key_value`: `allocate` a slot at index
`num_records` (the `assert!`ed success holds at every `split_put` call site,
where the destination has at least as much free space as the source) and copy
the record in. -/
def pushRecord (l : Leaf) (r : Nat × List Nat) : Leaf :=
  { l with records := l.records ++ [r] }

/-- `self.payload.delete(last)`: drop the last record. -/
def dropLastRec (l : Leaf) : Leaf := { l with records := l.records.dropLast }

/-- `new_leaf.payload.reverse()`. -/
def reverseRecs (l : Leaf) : Leaf := { l with records := l.records.reverse }

/-- The inner move loop of `split_put`: while the donor does not yet have
strictly more free space than the recipient and still has at least two
records, pop the donor's last record and push it onto the recipient. -/
def splitMoveLoop : Nat → Leaf → Leaf → Leaf × Leaf
  | 0, self, other => (self, other)
  | fuel + 1, self, other =>
    if self.freeSpace > other.freeSpace then (self, other)
    else if self.numRecords ≤ 1 then (self, other)
    else
      let last := self.records.getD (self.numRecords - 1) (0, [])
      splitMoveLoop fuel self.dropLastRec (other.pushRecord last)

/-- The exit taken when the outer loop of `split_put` breaks: reverse the new
leaf's directory, insert the new record into this (the left) leaf, and return
the first key of the new leaf. -/
def splitPutFinish (self other : Leaf) (key : Nat) (value : List Nat) : Leaf × Leaf × Nat :=
  let other' := other.reverseRecs
  let self' := (self.put key value).2
  (self', other', other'.recKey 0)

/-- The outer loop of `split_put`, fuelled (each iteration that recurses
removes one record from `self`, so `num_records + 1` fuel suffices). -/
def splitPutLoop : Nat → Leaf → Leaf → Nat → List Nat → Leaf × Leaf × Nat
  | 0, self, other, key, value => splitPutFinish self other key value
  | fuel + 1, self, other, key, value =>
    if self.freeSpace > other.freeSpace then splitPutFinish self other key value
    else if self.numRecords ≤ 1 then splitPutFinish self other key value
    else
      let last := self.records.getD (self.numRecords - 1) (0, [])
      if key < last.1 then
        splitPutLoop fuel self.dropLastRec (other.pushRecord last) key value
      else
        let other1 := other.pushRecord (key, value)
        let self1 := if key = last.1 then self.dropLastRec else self
        let (self2, other2) := splitMoveLoop self1.numRecords self1 other1
        let other3 := other2.reverseRecs
        (self2, other3, other3.recKey 0)

/-- `split_put(new_leaf, new_key, new_value) -> Key`: moves the largest
records of this leaf into `new_leaf` until this leaf has strictly more free
space, inserting the new record on whichever side it belongs, reverses
`new_leaf`'s directory into ascending order, and returns `new_leaf`'s first
key.  Result: `(self afterwards, new_leaf afterwards, separator key)`. -/
def splitPut (self other : Leaf) (key : Nat) (value : List Nat) : Leaf × Leaf × Nat :=
  splitPutLoop (self.numRecords + 1) self other key value

end Leaf

/-! ## Node pages and the page store (src/btree/node.rs, src/buffer.rs)

The buffer pool is modelled as a map from page ids to page contents; pins,
latches, frames and eviction disappear (the tree claims are about the bytes
that traversal reads and writes through the pool).  A page is either a tree
header page (`BTreePage`: root id in bytes 0..8) or a node page (tag byte,
then a leaf or branch body). -/

/-- A node page's body. -/
inductive Node where
  | leaf (l : Leaf)
  | branch (b : Branch)
deriving DecidableEq, Repr

/-- A page as the tree layer interprets it. -/
inductive Page where
  | meta (rootPageId : Nat)
  | node (n : Node)
deriving DecidableEq, Repr

/-- Errors of the access layer: `Deadlock` from btree, and `fault` for the
buffer-layer errors (I/O, `NoFreeBuffer`), a failed `unwrap`, or traversal
fuel running out. -/
inductive BErr where
  | deadlock
  | fault
deriving DecidableEq, Repr

/-- Decidable equality of `Except` results (for concrete evaluation). -/
instance {ε α : Type} [DecidableEq ε] [DecidableEq α] : DecidableEq (Except ε α) := fun a b =>
  match a, b with
  | .ok x, .ok y =>
    if h : x = y then .isTrue (by rw [h]) else .isFalse (fun hh => by cases hh; exact h rfl)
  | .error x, .error y =>
    if h : x = y then .isTrue (by rw [h]) else .isFalse (fun hh => by cases hh; exact h rfl)
  | .ok _, .error _ => .isFalse (fun hh => by cases hh)
  | .error _, .ok _ => .isFalse (fun hh => by cases hh)

/-- The page store standing for `BufferPoolManager` + `DiskManager`.
`leafCap` and `branchCap` are the body capacities that freshly created leaf
and branch pages get (4072 and 4088 for real 4096-byte pages). -/
structure Store where
  pages : Nat → Option Page
  nextPageId : Nat
  leafCap : Nat
  branchCap : Nat

/-- Overwrite one page. -/
def Store.set (s : Store) (pid : Nat) (pg : Page) : Store :=
  { s with pages := fun q => if q = pid then some pg else s.pages q }

/-- `create_page()`: allocates the next page id (the zeroed frame is
populated by the caller's node initialization, modelled by the caller's
subsequent `Store.set`). -/
def Store.createPage (s : Store) : Nat × Store :=
  (s.nextPageId, { s with nextPageId := s.nextPageId + 1 })

/-! ## BTree access (src/btree.rs) -/

/-- `Access::get_internal`: descend by `Branch::find`, then at the leaf
`leaf.get(key).map(|value| buf.extend(value)).is_some()` — the value is
appended to `buf` (never cleared) and the hit flag returned. -/
def getInternal (s : Store) (key : Nat) (buf : List Nat) : Nat → Nat → Except BErr (Bool × List Nat)
  | 0, _ => .error .fault
  | fuel + 1, pid =>
    match s.pages pid with
    | some (.node (.leaf lf)) =>
      match lf.get key with
      | some v => .ok (true, buf ++ v)
      | none => .ok (false, buf)
    | some (.node (.branch b)) => getInternal s key buf fuel (b.pairChild (b.find key))
    | _ => .error .fault

/-- `Access::get`: read the root id from the tree header page, then
`get_internal` from the root. -/
def Access.get (s : Store) (btreePageId : Nat) (key : Nat) (buf : List Nat)
    (fuel : Nat) : Except BErr (Bool × List Nat) :=
  match s.pages btreePageId with
  | some (.meta root) => getInternal s key buf fuel root
  | _ => .error .fault

/-- `Access::put_internal`.  `latchOk` is the oracle for the single
non-blocking `try_write_owned` on the right sibling of a splitting leaf
(`false` = some other worker holds that latch).  The store is threaded
through and returned unchanged alongside every error. -/
def putInternal (key : Nat) (value : List Nat) (latchOk : Bool) :
    Nat → Store → Nat → Store × Except BErr (Option (Nat × Nat))
  | 0, s, _ => (s, .error .fault)
  | fuel + 1, s, pid =>
    match s.pages pid with
    | some (.node (.leaf lf)) =>
      let r := lf.put key value
      if r.1 then (s.set pid (.node (.leaf r.2)), .ok none)
      else
        match lf.nextPageId with
        | some nid =>
          match s.pages nid with
          | some (.node (.leaf nlf)) =>
            if ¬ latchOk then (s, .error .deadlock)
            else
              let (newId, s1) := s.createPage
              let s2 := s1.set nid (.node (.leaf (nlf.setPrev (some newId))))
              let lf1 := lf.setNext (some newId)
              let newLf : Leaf :=
                { prevPageId := none, nextPageId := none, capacity := s.leafCap, records := [] }
              let res := lf1.splitPut newLf key value
              let newLf' := (res.2.1.setPrev (some pid)).setNext (some nid)
              let s3 := (s2.set pid (.node (.leaf res.1))).set newId (.node (.leaf newLf'))
              (s3, .ok (some (res.2.2, newId)))
          | _ => (s, .error .fault)
        | none =>
          let (newId, s1) := s.createPage
          let lf1 := lf.setNext (some newId)
          let newLf : Leaf :=
            { prevPageId := none, nextPageId := none, capacity := s.leafCap, records := [] }
          let res := lf1.splitPut newLf key value
          let newLf' := (res.2.1.setPrev (some pid)).setNext none
          let s3 := (s1.set pid (.node (.leaf res.1))).set newId (.node (.leaf newLf'))
          (s3, .ok (some (res.2.2, newId)))
    | some (.node (.branch b)) =>
      let index := b.find key
      let child := b.pairChild index
      let r := putInternal key value latchOk fuel s child
      match r.2 with
      | .error e => (r.1, .error e)
      | .ok none => (r.1, .ok none)
      | .ok (some kc) =>
        let b1 := b.insert (index + 1) kc.1 kc.2
        if b1.maxPairs ≤ b1.numPairs then
          let (nbId, s2) := r.1.createPage
          let sp := b1.split s2.branchCap
          let s3 := (s2.set pid (.node (.branch sp.1))).set nbId (.node (.branch sp.2.1))
          (s3, .ok (some (sp.2.2, nbId)))
        else (r.1.set pid (.node (.branch b1)), .ok none)
    | _ => (s, .error .fault)

/-- `Access::put`: descend from the header; if the root split, create a new
root branch over the promoted key and the two children and repoint the
header at it. -/
def Access.put (s : Store) (btreePageId : Nat) (key : Nat) (value : List Nat)
    (latchOk : Bool) (fuel : Nat) : Store × Except BErr Unit :=
  match s.pages btreePageId with
  | some (.meta rootPid) =>
    let r := putInternal key value latchOk fuel s rootPid
    match r.2 with
    | .error e => (r.1, .error e)
    | .ok none => (r.1, .ok ())
    | .ok (some kc) =>
      let (newRootId, s2) := r.1.createPage
      let s3 := s2.set newRootId (.node (.branch (Branch.initPairs kc.1 rootPid kc.2 s2.branchCap)))
      let s4 := s3.set btreePageId (.meta newRootId)
      (s4, .ok ())
  | _ => (s, .error .fault)

/-! ## Iterators (src/btree.rs, `Iter` / `IterRev`) -/

/-- The forward iterator's state: the currently latched leaf page (if any)
and the next slot index. -/
structure IterState where
  cur : Option Nat
  index : Nat
deriving DecidableEq, Repr

/-- `Iter::next`: yield the record at the current index, or move to the next
sibling (index 0) and retry; with no current leaf, yield `None` forever.
The fuel bounds the sibling hops inside one call. -/
def Iter.next (s : Store) : Nat → IterState → Except BErr (Option (Nat × List Nat) × IterState)
  | 0, _ => .error .fault
  | fuel + 1, it =>
    match it.cur with
    | none => .ok (none, it)
    | some pid =>
      match s.pages pid with
      | some (.node (.leaf lf)) =>
        if it.index < lf.numRecords then
          .ok (some (lf.records.getD it.index (0, [])), { cur := some pid, index := it.index + 1 })
        else Iter.next s fuel { cur := lf.nextPageId, index := 0 }
      | _ => .error .fault

/-- `Access::iter_internal`: in a branch descend via `find` (leftmost child
when no start key); at the leaf start from the `find` result or its insert
position (0 when no start key). -/
def iterInternal (s : Store) (key : Option Nat) : Nat → Nat → Except BErr IterState
  | 0, _ => .error .fault
  | fuel + 1, pid =>
    match s.pages pid with
    | some (.node (.leaf lf)) =>
      let start :=
        match key with
        | some k =>
          match lf.find k with
          | .found i => i
          | .notFound i => i
        | none => 0
      .ok { cur := some pid, index := start }
    | some (.node (.branch b)) =>
      let index := match key with | some k => b.find k | none => 0
      iterInternal s key fuel (b.pairChild index)
    | _ => .error .fault

/-- `Access::iter`. -/
def Access.iter (s : Store) (btreePageId : Nat) (key : Option Nat)
    (fuel : Nat) : Except BErr IterState :=
  match s.pages btreePageId with
  | some (.meta root) => iterInternal s key fuel root
  | _ => .error .fault

/-- The backward iterator's state; the index is an `isize` (it goes to −1
before crossing to the previous sibling). -/
structure IterRevState where
  cur : Option Nat
  index : Int
deriving DecidableEq, Repr

/-- `IterRev::next`: yield the record at the current index and step down, or
cross to the previous sibling setting the index to its last record. -/
def IterRev.next (s : Store) : Nat → IterRevState → Except BErr (Option (Nat × List Nat) × IterRevState)
  | 0, _ => .error .fault
  | fuel + 1, it =>
    match it.cur with
    | none => .ok (none, it)
    | some pid =>
      match s.pages pid with
      | some (.node (.leaf lf)) =>
        if 0 ≤ it.index then
          .ok (some (lf.records.getD it.index.toNat (0, [])),
               { cur := some pid, index := it.index - 1 })
        else
          match lf.prevPageId with
          | some ppid =>
            match s.pages ppid with
            | some (.node (.leaf plf)) =>
              IterRev.next s fuel { cur := some ppid, index := (plf.numRecords : Int) - 1 }
            | _ => .error .fault
          | none => IterRev.next s fuel { cur := none, index := it.index }
      | _ => .error .fault

/-- `Access::iter_rev_internal`: in a branch descend via `find` (rightmost
child when no start key); at the leaf start from the `find` result, or the
insert position − 1 on a miss (`isize` arithmetic: −1 means "cross to the
previous sibling first"). -/
def iterRevInternal (s : Store) (key : Option Nat) : Nat → Nat → Except BErr IterRevState
  | 0, _ => .error .fault
  | fuel + 1, pid =>
    match s.pages pid with
    | some (.node (.leaf lf)) =>
      let start : Int :=
        match key with
        | some k =>
          match lf.find k with
          | .found i => (i : Int)
          | .notFound i => (i : Int) - 1
        | none => (lf.numRecords : Int) - 1
      .ok { cur := some pid, index := start }
    | some (.node (.branch b)) =>
      let index := match key with | some k => b.find k | none => b.numPairs - 1
      iterRevInternal s key fuel (b.pairChild index)
    | _ => .error .fault

/-- `Access::iter_rev`. -/
def Access.iterRev (s : Store) (btreePageId : Nat) (key : Option Nat)
    (fuel : Nat) : Except BErr IterRevState :=
  match s.pages btreePageId with
  | some (.meta root) => iterRevInternal s key fuel root
  | _ => .error .fault

/-- Drain the forward iterator: collect yielded records until it yields
`None` (fuel bounds both the yields and the sibling hops). -/
def iterAll (s : Store) : Nat → IterState → Except BErr (List (Nat × List Nat))
  | 0, _ => .error .fault
  | fuel + 1, it =>
    match Iter.next s (fuel + 1) it with
    | .error e => .error e
    | .ok (none, _) => .ok []
    | .ok (some r, it') =>
      match iterAll s fuel it' with
      | .error e => .error e
      | .ok rs => .ok (r :: rs)

/-- Drain the backward iterator. -/
def iterRevAll (s : Store) : Nat → IterRevState → Except BErr (List (Nat × List Nat))
  | 0, _ => .error .fault
  | fuel + 1, it =>
    match IterRev.next s (fuel + 1) it with
    | .error e => .error e
    | .ok (none, _) => .ok []
    | .ok (some r, it') =>
      match iterRevAll s fuel it' with
      | .error e => .error e
      | .ok rs => .ok (r :: rs)

/-! ## Executor (src/executor.rs), DeleteItem path -/

/-- `query::DeleteItemInput`. -/
structure DeleteItemInput where
  tableId : Nat
  key : Nat
deriving DecidableEq, Repr

/-- The wire-level error payload (`query::Error`). -/
inductive QueryError where
  | deadlockTag
  | other (message : String)
deriving DecidableEq, Repr

/-- The observable outcome of one `Executor::execute` call: either the handler
returns a `query::Response` (possibly the `Error` variant), or the executing
thread panics and no response is produced at all. -/
inductive ExecOutcome where
  | response (isError : Bool) (err : Option QueryError)
  | panicked (msg : String)
deriving DecidableEq, Repr

/-- `Executor::delete_item`: the body is `todo!()`, which panics with
"not yet implemented" before producing any value. -/
def Executor.deleteItem (_input : DeleteItemInput) : ExecOutcome :=
  .panicked "not yet implemented"

/-- The six request kinds of `query::Request`; the non-`DeleteItem` handlers
are irrelevant to the claim and are supplied as parameters (they stand for
`get_item`, `put_item`, `create_table`, `scan_item`, `flush` composed with
`execute`'s error classification). -/
inductive Request where
  | getItem (payload : Nat × Nat)
  | putItem (payload : Nat × Nat × String)
  | deleteItem (input : DeleteItemInput)
  | createTable (payload : Nat)
  | scanItem (payload : Nat × Option Nat × Bool × Nat)
  | flush
deriving DecidableEq, Repr

/-- Handlers for the five implemented request kinds (fields of `Executor`
behaviour other than `delete_item`). -/
structure ExecutorHandlers where
  getItem : Nat × Nat → ExecOutcome
  putItem : Nat × Nat × String → ExecOutcome
  createTable : Nat → ExecOutcome
  scanItem : Nat × Option Nat × Bool × Nat → ExecOutcome
  flush : ExecOutcome

/-- `Executor::execute`: dispatch on the request kind.  In the `DeleteItem`
arm the call `self.delete_item(input)` panics inside `todo!()` before the
`map`/`map_err`/`unwrap_or_else` error classification can run, so the panic is
the outcome of the whole call. -/
def Executor.execute (h : ExecutorHandlers) : Request → ExecOutcome
  | .getItem p => h.getItem p
  | .putItem p => h.putItem p
  | .deleteItem input => Executor.deleteItem input
  | .createTable p => h.createTable p
  | .scanItem p => h.scanItem p
  | .flush => h.flush

/-- Whether one operation is safe to apply on a state: `realloc` must not grow
a slot of length 0 (growing a zero-length slot whose offset coincides with a
nonempty slot's offset shifts that slot's pointer without moving its bytes —
the defect exhibited by the corrected claim's counterexample). -/
def Slotted.OpSafe (s : Slotted) : Slotted.Op → Prop
  | .realloc index newLen => newLen = 0 ∨ (s.pointers.getD index ⟨0, 0⟩).len ≠ 0
  | _ => True

instance (s : Slotted) (op : Slotted.Op) : Decidable (s.OpSafe op) := by
  unfold Slotted.OpSafe
  cases op <;> infer_instance

/-- States reachable from `s` by applying safe operations. -/
inductive Slotted.SafeReach : Slotted → Slotted → Prop
  | refl (s : Slotted) : Slotted.SafeReach s s
  | step {s t : Slotted} (op : Slotted.Op) :
      Slotted.SafeReach s t → t.OpSafe op → Slotted.SafeReach s (t.applyOp op)

/-- A raw 100-byte slotted page (capacity 100), used as a concrete input. -/
def slottedDemo : Slotted :=
  { capacity := 100, freeSpaceOffset := 0, pointers := [], heap := List.replicate 100 0 }

/-- The operation sequence refuting the unrestricted well-formedness claim:
after `initialize; allocate(0,10); allocate(0,0); realloc(0,5)` the two slots
are `(85,5)` and `(85,10)` — overlapping byte ranges. -/
def slottedBad : Slotted :=
  slottedDemo.initState.applyOps [.allocate 0 10, .allocate 0 0, .realloc 0 5]

/-- A small well-formed slotted page with free space 4 (two 4-byte slots on a
20-byte payload), used as a concrete input for failing operations. -/
def slottedTight : Slotted :=
  { capacity := 20, freeSpaceOffset := 12,
    pointers := [⟨12, 4⟩, ⟨16, 4⟩], heap := List.replicate 20 0 }

/-- The branch of the source's own `test_insert_find`/`test_split` tests:
pairs `(_,1),(5,2),(8,3),(11,4)` on a 100-byte body. -/
def brDemo : Branch := { payloadLen := 100, pairs := [(0, 1), (5, 2), (8, 3), (11, 4)] }

/-- The page map of the concrete tree refuting the round-trip claim: page 0
is the tree header (root = 1); page 1 is a *full* root branch (5 pairs on a
96-byte body, `max_pairs = 6`, separator keys `10·i`, child of index `i` is
the leaf page `i + 10`); each leaf is full (two records of size 16 on a
40-byte body, free space 0), and the leaves form the usual doubly linked
chain.  Key 13 routes to leaf 11 (keys 10, 11), whose split promotes a new
separator into branch index 2; the branch then has 6 ≥ max_pairs pairs and
splits with `mid = 3`, dropping the pair at index `mid − 1 = 2` — exactly
the pair pointing at the freshly created leaf that holds key 13.  Every
`Branch::find` on this trace stays strictly inside `num_pairs`, so no stale
out-of-range pair bytes are read and the model is exact here. -/
def c1Pages : Nat → Option Page := fun pid =>
  if pid = 0 then some (.meta 1)
  else if pid = 1 then
    some (.node (.branch
      { payloadLen := 96, pairs := [(0, 10), (10, 11), (20, 12), (30, 13), (40, 14)] }))
  else if pid = 10 then
    some (.node (.leaf
      { prevPageId := none, nextPageId := some 11, capacity := 40,
        records := [(1, List.replicate 8 7), (2, List.replicate 8 7)] }))
  else if pid = 11 then
    some (.node (.leaf
      { prevPageId := some 10, nextPageId := some 12, capacity := 40,
        records := [(10, List.replicate 8 7), (11, List.replicate 8 7)] }))
  else if pid = 12 then
    some (.node (.leaf
      { prevPageId := some 11, nextPageId := some 13, capacity := 40,
        records := [(20, List.replicate 8 7), (21, List.replicate 8 7)] }))
  else if pid = 13 then
    some (.node (.leaf
      { prevPageId := some 12, nextPageId := some 14, capacity := 40,
        records := [(30, List.replicate 8 7), (31, List.replicate 8 7)] }))
  else if pid = 14 then
    some (.node (.leaf
      { prevPageId := some 13, nextPageId := none, capacity := 40,
        records := [(40, List.replicate 8 7), (41, List.replicate 8 7)] }))
  else none

/-- The store for the round-trip refutation.  The capacities are scaled down
from the real page-derived ones (leaf body 4072, branch body 4088,
`max_pairs = 255`) to keep the trace small; the split arithmetic
(`mid = num_pairs / 2`, `set_num_pairs(mid - 1)`) is capacity-independent,
and the same loss occurs at full scale (full 255-pair branch, 2018-byte
leaf values, key 1265). -/
def c1Store : Store :=
  { pages := c1Pages, nextPageId := 20, leafCap := 40, branchCap := 96 }

/-- A tiny tree whose root leaf (page 1) is full (free space 2 on a 56-byte
body) and has a right sibling (page 2): inserting key 25 must split and
relink, which needs the sibling's latch. -/
def c3Store : Store :=
  { pages := fun pid =>
      if pid = 0 then some (.meta 1)
      else if pid = 1 then
        some (.node (.leaf
          { prevPageId := none, nextPageId := some 2, capacity := 56,
            records := [(10, List.replicate 15 1), (20, List.replicate 15 2)] }))
      else if pid = 2 then
        some (.node (.leaf
          { prevPageId := some 1, nextPageId := none, capacity := 56,
            records := [(30, [3])] }))
      else none,
    nextPageId := 3, leafCap := 56, branchCap := 64 }

/-- A one-leaf tree holding key 5 ↦ bytes [9], for the buffer-append
witness. -/
def c10Store : Store :=
  { pages := fun pid =>
      if pid = 0 then some (.meta 1)
      else if pid = 1 then
        some (.node (.leaf
          { prevPageId := none, nextPageId := none, capacity := 56, records := [(5, [9])] }))
      else none,
    nextPageId := 2, leafCap := 56, branchCap := 64 }

/-! ### A tree built by successful puts (for the scan-resumption claim)

The iterators are exercised on a tree grown from an empty root leaf by
nothing but `Access::put` calls, every one of which returns `Ok`, so the
result is a "tree built by successful puts" in the claim's sense.  The
capacities are the same scaled-down page-derived ones as `c1Store`
(leaf body 40, branch body 96), and every branch that ever exists on these
traces has at least 2 pairs, so every `Branch::find` reads only live pairs
and the model is exact. -/

/-- A tree holding no records: page 0 is the header, page 1 an empty root
leaf. -/
def c7Empty : Store :=
  { pages := fun pid =>
      if pid = 0 then some (.meta 1)
      else if pid = 1 then
        some (.node (.leaf
          { prevPageId := none, nextPageId := none, capacity := 40, records := [] }))
      else none,
    nextPageId := 2, leafCap := 40, branchCap := 96 }

/-- One `put` of key `k` with an 8-byte value, keeping only the store. -/
def putOne (s : Store) (k : Nat) : Store :=
  (Access.put s 0 k (List.replicate 8 7) true 10).1

/-- Fold a list of keys through `putOne`. -/
def putSeq (s : Store) : List Nat → Store
  | [] => s
  | k :: ks => putSeq (putOne s k) ks

/-- `true` iff every `put` in the sequence returns `Ok`. -/
def putSeqOk (s : Store) : List Nat → Bool
  | [] => true
  | k :: ks =>
    ((Access.put s 0 k (List.replicate 8 7) true 10).2 = .ok ()) && putSeqOk (putOne s k) ks

/-- The keys 1, 2, …, 13, inserted in ascending order. -/
def c7Keys : List Nat := (List.range 13).map (fun i => i + 1)

/-- The tree after the 13 successful puts. -/
def c7Store : Store := putSeq c7Empty c7Keys

/-- The key sequence of a full forward scan from `key` (`none` = from the
first record): `Access::iter` then repeated `Iter::next`. -/
def scanKeys (s : Store) (key : Option Nat) : Except BErr (List Nat) :=
  (Access.iter s 0 key 10).bind (fun it => (iterAll s 60 it).map (fun l => l.map Prod.fst))

/-- The key sequence of a full backward scan from `key` (`none` = from the
last record): `Access::iter_rev` then repeated `IterRev::next`. -/
def scanKeysRev (s : Store) (key : Option Nat) : Except BErr (List Nat) :=
  (Access.iterRev s 0 key 10).bind (fun it => (iterRevAll s 60 it).map (fun l => l.map Prod.fst))

end QP

/-! # Theorems -/

namespace QP

/-! ## List access helpers -/

theorem getD_map {α β : Type} (l : List α) (f : α → β) (i : Nat) (d : β) (d' : α)
    (h : i < l.length) : (l.map f).getD i d = f (l.getD i d') := by
  rw [List.getD_eq_getElem _ _ (by simpa using h), List.getD_eq_getElem _ _ h, List.getElem_map]

theorem getD_map_default {α β : Type} (l : List α) (f : α → β) (i : Nat) (d : β)
    (h : l.length ≤ i) : (l.map f).getD i d = d := by
  apply List.getD_eq_default
  simpa using h

theorem getD_set_self {α : Type} (l : List α) (i : Nat) (a : α) (d : α)
    (h : i < l.length) : (l.set i a).getD i d = a := by
  rw [List.getD_eq_getElem _ _ (by simpa using h)]
  rw [List.getElem_set_self]

theorem getD_set_ne {α : Type} (l : List α) (i : Nat) (a : α) (j : Nat) (d : α)
    (h : j ≠ i) : (l.set i a).getD j d = l.getD j d := by
  by_cases hj : j < l.length
  · rw [List.getD_eq_getElem _ _ (by simpa using hj), List.getD_eq_getElem _ _ hj]
    rw [List.getElem_set_ne]
    omega
  · rw [List.getD_eq_default _ _ (by simpa using not_lt.mp hj),
      List.getD_eq_default _ _ (not_lt.mp hj)]

theorem length_set_eq {α : Type} (l : List α) (i : Nat) (a : α) :
    (l.set i a).length = l.length := by simp

theorem getD_insertIdx_lt {α : Type} (l : List α) (n : Nat) (x : α) (k : Nat) (d : α)
    (hn : k < n) (hk : k < l.length) : (l.insertIdx n x).getD k d = l.getD k d := by
  rw [List.getD_eq_getElem _ _ hk,
    List.getD_eq_getElem _ _ (lt_of_lt_of_le hk (List.length_le_length_insertIdx l x n))]
  exact List.getElem_insertIdx_of_lt l x n k hn _

theorem getD_insertIdx_self {α : Type} (l : List α) (n : Nat) (x : α) (d : α)
    (hn : n ≤ l.length) : (l.insertIdx n x).getD n d = x := by
  rw [List.getD_eq_getElem _ _ (by rw [List.length_insertIdx n l hn]; omega)]
  exact List.getElem_insertIdx_self l x n hn _

theorem getD_insertIdx_gt {α : Type} (l : List α) (n : Nat) (x : α) (k : Nat) (d : α)
    (hn : n ≤ l.length) (hk : n < k) : (l.insertIdx n x).getD k d = l.getD (k - 1) d := by
  by_cases hkl : k < l.length + 1
  · obtain ⟨m, rfl⟩ : ∃ m, k = n + m + 1 := ⟨k - n - 1, by omega⟩
    rw [List.getD_eq_getElem _ _ (by rw [List.length_insertIdx n l hn]; omega),
      List.getD_eq_getElem _ _ (by omega)]
    have := List.getElem_insertIdx_add_succ l x n m (by omega)
    simpa [Nat.add_sub_cancel] using this
  · rw [List.getD_eq_default _ _ (by rw [List.length_insertIdx n l hn]; omega),
      List.getD_eq_default _ _ (by omega)]

theorem getD_reverse {α : Type} (l : List α) (i : Nat) (d : α) (h : i < l.length) :
    l.reverse.getD i d = l.getD (l.length - 1 - i) d := by
  rw [List.getD_eq_getElem _ _ (by simpa using h), List.getD_eq_getElem _ _ (by omega)]
  exact List.getElem_reverse _

theorem getD_range_map {α : Type} (m : Nat) (f : Nat → α) (p : Nat) (d : α) (h : p < m) :
    ((List.range m).map f).getD p d = f p := by
  rw [getD_map _ _ _ _ 0 (by simpa using h), List.getD_eq_getElem _ _ (by simpa using h)]
  simp

/-! ## Slotted page: preservation of the strengthened invariant -/

namespace Slotted

/-- Unfolded form of `WF` with `numSlots`/`pointerSize` spelled out, for
arithmetic reasoning. -/
theorem WF_iff (s : Slotted) : s.WF ↔
    s.capacity < 2 ^ 15 ∧
    s.pointers.length * 4 ≤ s.freeSpaceOffset ∧
    s.freeSpaceOffset ≤ s.capacity ∧
    (∀ i, i < s.pointers.length →
      s.freeSpaceOffset ≤ (s.pointers.getD i ⟨0, 0⟩).offset ∧
      (s.pointers.getD i ⟨0, 0⟩).offset + (s.pointers.getD i ⟨0, 0⟩).len ≤ s.capacity) ∧
    (∀ i j, i < s.pointers.length → j < s.pointers.length → i ≠ j →
      (s.pointers.getD i ⟨0, 0⟩).offset + (s.pointers.getD i ⟨0, 0⟩).len ≤
          (s.pointers.getD j ⟨0, 0⟩).offset ∨
        (s.pointers.getD j ⟨0, 0⟩).offset + (s.pointers.getD j ⟨0, 0⟩).len ≤
          (s.pointers.getD i ⟨0, 0⟩).offset) := by
  unfold WF numSlots pointerSize
  exact Iff.rfl

/-- Unfolded form of `freeSpace`. -/
theorem freeSpace_eq (s : Slotted) :
    s.freeSpace = s.freeSpaceOffset - s.pointers.length * 4 := rfl

/-- The strengthened invariant implies the claimed invariant (ordered ranges
are in particular disjoint). -/
theorem WF.toInv {s : Slotted} (h : s.WF) : s.Inv := by
  rw [WF_iff] at h
  obtain ⟨-, h2, -, h4, h5⟩ := h
  refine ⟨h2, h4, ?_⟩
  intro i j hi hj hij x hx
  rcases h5 i j hi hj hij with h | h
  · intro hx'
    omega
  · intro hx'
    omega

/-- `initialize` establishes the invariant. -/
theorem initState_WF (s : Slotted) (hcap : s.capacity < 2 ^ 15) : s.initState.WF := by
  rw [WF_iff]
  refine ⟨hcap, ?_, le_refl _, ?_, ?_⟩ <;>
    simp [initState]

/-- `allocate` preserves the invariant. -/
theorem allocate_WF (s : Slotted) (index len : Nat) (hWF : s.WF)
    (hidx : index ≤ s.pointers.length) : (s.allocate index len).2.WF := by
  rw [WF_iff] at hWF
  obtain ⟨hcap, h4N, hFC, hbnd, hord⟩ := hWF
  unfold allocate
  by_cases hfree : s.freeSpace < len + pointerSize
  · rw [if_pos hfree, WF_iff]
    exact ⟨hcap, h4N, hFC, hbnd, hord⟩
  · rw [freeSpace_eq] at hfree
    have h2 : len + 4 ≤ s.freeSpaceOffset - s.pointers.length * 4 := not_lt.mp hfree
    have h3 : len + 4 + s.pointers.length * 4 ≤ s.freeSpaceOffset := by omega
    rw [if_neg (by rw [freeSpace_eq]; exact hfree), WF_iff]
    simp only
    have hN : (s.pointers.insertIdx index ⟨s.freeSpaceOffset - len, len⟩).length
        = s.pointers.length + 1 := List.length_insertIdx index s.pointers hidx
    have hgetlt : ∀ i, i < index →
        (s.pointers.insertIdx index ⟨s.freeSpaceOffset - len, len⟩).getD i ⟨0, 0⟩ =
          s.pointers.getD i ⟨0, 0⟩ := by
      intro i h1
      exact getD_insertIdx_lt _ _ _ _ _ h1 (by omega)
    have hgeteq :
        (s.pointers.insertIdx index ⟨s.freeSpaceOffset - len, len⟩).getD index ⟨0, 0⟩ =
          ⟨s.freeSpaceOffset - len, len⟩ :=
      getD_insertIdx_self _ _ _ _ hidx
    have hgetgt : ∀ i, index < i →
        (s.pointers.insertIdx index ⟨s.freeSpaceOffset - len, len⟩).getD i ⟨0, 0⟩ =
          s.pointers.getD (i - 1) ⟨0, 0⟩ := by
      intro i h1
      exact getD_insertIdx_gt _ _ _ _ _ hidx h1
    rw [hN]
    have hbnd' : ∀ i, i < s.pointers.length + 1 →
        s.freeSpaceOffset - len ≤
          ((s.pointers.insertIdx index ⟨s.freeSpaceOffset - len, len⟩).getD i ⟨0, 0⟩).offset ∧
        ((s.pointers.insertIdx index ⟨s.freeSpaceOffset - len, len⟩).getD i ⟨0, 0⟩).offset +
          ((s.pointers.insertIdx index ⟨s.freeSpaceOffset - len, len⟩).getD i ⟨0, 0⟩).len ≤
            s.capacity := by
      intro i hi
      rcases Nat.lt_trichotomy i index with h1 | h1 | h1
      · rw [hgetlt i h1]
        have := hbnd i (by omega)
        omega
      · rw [h1, hgeteq]
        dsimp only
        omega
      · rw [hgetgt i h1]
        have := hbnd (i - 1) (by omega)
        omega
    refine ⟨hcap, by omega, by omega, hbnd', ?_⟩
    intro i j hi hj hij
    rcases Nat.lt_trichotomy i index with h1 | h1 | h1 <;>
      rcases Nat.lt_trichotomy j index with h2 | h2 | h2
    · rw [hgetlt i h1, hgetlt j h2]
      exact hord _ _ (by omega) (by omega) (by omega)
    · rw [hgetlt i h1, h2, hgeteq]
      rcases hbnd i (by omega) with ⟨hb1, hb2⟩
      right
      dsimp only
      omega
    · rw [hgetlt i h1, hgetgt j h2]
      exact hord _ _ (by omega) (by omega) (by omega)
    · rw [h1, hgeteq, hgetlt j h2]
      rcases hbnd j (by omega) with ⟨hb1, hb2⟩
      left
      dsimp only
      omega
    · omega
    · rw [h1, hgeteq, hgetgt j h2]
      rcases hbnd (j - 1) (by omega) with ⟨hb1, hb2⟩
      left
      dsimp only
      omega
    · rw [hgetgt i h1, hgetlt j h2]
      exact hord _ _ (by omega) (by omega) (by omega)
    · rw [hgetgt i h1, h2, hgeteq]
      rcases hbnd (i - 1) (by omega) with ⟨hb1, hb2⟩
      right
      dsimp only
      omega
    · rw [hgetgt i h1, hgetgt j h2]
      exact hord _ _ (by omega) (by omega) (by omega)

/-- `reverse` preserves the invariant. -/
theorem reverse_WF (s : Slotted) (hWF : s.WF) : s.reverse.WF := by
  rw [WF_iff] at hWF ⊢
  obtain ⟨hcap, h4N, hFC, hbnd, hord⟩ := hWF
  have hlen : s.reverse.pointers.length = s.pointers.length := by
    simp [reverse]
  have hget : ∀ i, i < s.pointers.length →
      s.reverse.pointers.getD i ⟨0, 0⟩ = s.pointers.getD (s.pointers.length - 1 - i) ⟨0, 0⟩ := by
    intro i hi
    exact getD_reverse _ _ _ hi
  rw [hlen]
  refine ⟨hcap, h4N, hFC, ?_, ?_⟩
  · intro i hi
    rw [show s.reverse.freeSpaceOffset = s.freeSpaceOffset from rfl, hget i hi]
    exact hbnd _ (by omega)
  · intro i j hi hj hij
    rw [hget i hi, hget j hj]
    exact hord _ _ (by omega) (by omega) (by omega)

/-- In-place slot writes touch only heap bytes; the invariant does not
mention them. -/
theorem writeSlot_WF (s : Slotted) (index : Nat) (bytes : List Nat) (hWF : s.WF) :
    (s.writeSlot index bytes).WF := by
  rw [WF_iff] at hWF ⊢
  exact hWF

/-- `realloc` preserves the invariant, provided it does not grow a slot of
length 0 (`hsafe`; without that proviso the invariant is refutable, see the
counterexample for the split-correctness claim on slotted pages). -/
theorem realloc_WF (s : Slotted) (index newLen : Nat) (hWF : s.WF)
    (hidx : index < s.pointers.length)
    (hsafe : newLen = 0 ∨ (s.pointers.getD index ⟨0, 0⟩).len ≠ 0) :
    (s.realloc index newLen).2.WF := by
  rw [WF_iff] at hWF
  obtain ⟨hcap, h4N, hFC, hbnd, hord⟩ := hWF
  simp only [realloc]
  by_cases hd0 : ((newLen : Int) - ((s.pointers.getD index ⟨0, 0⟩).len : Int)) = 0
  · rw [if_pos hd0, WF_iff]
    exact ⟨hcap, h4N, hFC, hbnd, hord⟩
  by_cases hfail : 0 < ((newLen : Int) - ((s.pointers.getD index ⟨0, 0⟩).len : Int)) ∧
      ((s.freeSpace : Int) < (newLen : Int) - ((s.pointers.getD index ⟨0, 0⟩).len : Int))
  · rw [if_neg hd0, if_pos hfail, WF_iff]
    exact ⟨hcap, h4N, hFC, hbnd, hord⟩
  rw [if_neg hd0, if_neg hfail, WF_iff]
  obtain ⟨hFo, holC⟩ := hbnd index hidx
  have hfsInt : (s.freeSpace : Int) = (s.freeSpaceOffset : Int) - (s.pointers.length : Int) * 4 := by
    rw [freeSpace_eq]
    omega
  -- abbreviations
  generalize hoEq : (s.pointers.getD index ⟨0, 0⟩).offset = o at *
  generalize hlEq : (s.pointers.getD index ⟨0, 0⟩).len = l at *
  -- the length difference is bounded: on growth it fits in the free space
  have hd : ((newLen : Int) - (l : Int)) ≤ (s.freeSpaceOffset : Int) - (s.pointers.length : Int) * 4 := by
    rcases lt_or_le (0 : Int) ((newLen : Int) - (l : Int)) with hpos | hneg
    · have := not_and.mp hfail hpos
      omega
    · have : (0 : Int) ≤ (s.freeSpaceOffset : Int) - (s.pointers.length : Int) * 4 := by
        omega
      omega
  have hl1 : newLen ≠ 0 → 1 ≤ l := by
    intro h
    rcases hsafe with h' | h'
    · exact absurd h' h
    · omega
  -- the new free-space offset is exact
  have hNFnn : (0 : Int) ≤ (s.freeSpaceOffset : Int) - ((newLen : Int) - (l : Int)) := by
    omega
  have hNF : ((((s.freeSpaceOffset : Int) - ((newLen : Int) - (l : Int))).toNat : Int)) =
      (s.freeSpaceOffset : Int) - ((newLen : Int) - (l : Int)) :=
    Int.toNat_of_nonneg hNFnn
  have hnl : newLen ≠ l := by
    intro h
    apply hd0
    omega
  have hlpos : 1 ≤ l := by
    rcases hsafe with h | h
    · subst h
      omega
    · omega
  dsimp only
  generalize hNFv : ((s.freeSpaceOffset : Int) - ((newLen : Int) - (l : Int))).toNat = NF at *
  generalize hfv : (fun p : Pointer =>
      if p.offset ≤ o then
        (⟨((p.offset : Int) - ((newLen : Int) - (l : Int))).toNat, p.len⟩ : Pointer)
      else p) = f at *
  have hflen : ∀ p : Pointer,
      (f p).len = p.len := by
    intro p
    rw [← hfv]
    by_cases h : p.offset ≤ o <;> simp [h]
  have hfoff : ∀ p : Pointer, s.freeSpaceOffset ≤ p.offset →
      ((f p).offset : Int) =
        if p.offset ≤ o then (p.offset : Int) - ((newLen : Int) - (l : Int))
        else (p.offset : Int) := by
    intro p hp
    rw [← hfv]
    by_cases h : p.offset ≤ o <;> simp only [h, if_true, if_false, ite_true, ite_false]
    · exact Int.toNat_of_nonneg (by omega)
  have hNlen : ((s.pointers.map f).set index
      (⟨if newLen = 0 then NF
        else ((s.pointers.map f).getD index ⟨0, 0⟩).offset, newLen⟩ : Pointer)).length
      = s.pointers.length := by
    simp
  have hgetNe : ∀ j, j < s.pointers.length → j ≠ index →
      ((s.pointers.map f).set index
        (⟨if newLen = 0 then NF
          else ((s.pointers.map f).getD index ⟨0, 0⟩).offset, newLen⟩ : Pointer)).getD j ⟨0, 0⟩
        = f (s.pointers.getD j ⟨0, 0⟩) := by
    intro j hj hne
    rw [getD_set_ne _ _ _ _ _ hne, getD_map _ _ _ _ ⟨0, 0⟩ hj]
  have htgtoff : ((s.pointers.map f).getD index ⟨0, 0⟩).offset =
      (((o : Int) - ((newLen : Int) - (l : Int))).toNat) := by
    rw [getD_map _ _ _ _ ⟨0, 0⟩ hidx, ← hfv]
    simp only [hoEq, le_refl, if_true, ite_true]
  rw [htgtoff]
  have hoExact : ((((o : Int) - ((newLen : Int) - (l : Int))).toNat : Int)) =
      (o : Int) - ((newLen : Int) - (l : Int)) :=
    Int.toNat_of_nonneg (by omega)
  set tgt : Pointer :=
    ⟨if newLen = 0 then NF else ((o : Int) - ((newLen : Int) - (l : Int))).toNat, newLen⟩
    with htgtv
  set P : List Pointer := (s.pointers.map f).set index tgt with hPv
  have hPlen : P.length = s.pointers.length := by
    rw [hPv]
    simp
  have hPgetNe : ∀ j, j < s.pointers.length → j ≠ index →
      P.getD j ⟨0, 0⟩ = f (s.pointers.getD j ⟨0, 0⟩) := by
    intro j hj hne
    rw [hPv, getD_set_ne _ _ _ _ _ hne, getD_map _ _ _ _ ⟨0, 0⟩ hj]
  have hPgetIdx : P.getD index ⟨0, 0⟩ = tgt := by
    rw [hPv]
    apply getD_set_self
    simpa using hidx
  have hshiftb : ∀ j, j < s.pointers.length → j ≠ index →
      (s.pointers.getD j ⟨0, 0⟩).offset ≤ o →
      (s.pointers.getD j ⟨0, 0⟩).offset + (s.pointers.getD j ⟨0, 0⟩).len ≤ o := by
    intro j hj hne hle
    have h' := hord j index hj hidx hne
    rw [hoEq, hlEq] at h'
    rcases h' with h' | h'
    · exact h'
    · omega
  have hunshiftb : ∀ j, j < s.pointers.length → j ≠ index →
      ¬ (s.pointers.getD j ⟨0, 0⟩).offset ≤ o →
      o + l ≤ (s.pointers.getD j ⟨0, 0⟩).offset := by
    intro j hj hne hgt
    have h' := hord j index hj hidx hne
    rw [hoEq, hlEq] at h'
    rcases h' with h' | h'
    · omega
    · omega
  have hbP : ∀ j, j < s.pointers.length →
      NF ≤ (P.getD j ⟨0, 0⟩).offset ∧
        (P.getD j ⟨0, 0⟩).offset + (P.getD j ⟨0, 0⟩).len ≤ s.capacity := by
    intro j hj
    by_cases hje : j = index
    · subst hje
      rw [hPgetIdx, htgtv]
      by_cases hz : newLen = 0
      · simp only [hz, if_true, ite_true]
        constructor
        · omega
        · omega
      · simp only [hz, if_false, ite_false]
        constructor
        · omega
        · omega
    · rw [hPgetNe j hj hje, hflen]
      have hb := hbnd j hj
      by_cases hsh : (s.pointers.getD j ⟨0, 0⟩).offset ≤ o
      · have hfo := hfoff _ hb.1
        rw [if_pos hsh] at hfo
        have hend := hshiftb j hj hje hsh
        constructor
        · omega
        · omega
      · have hfo := hfoff _ hb.1
        rw [if_neg hsh] at hfo
        have hnext := hunshiftb j hj hje hsh
        constructor
        · omega
        · omega
  refine ⟨hcap, ?_, ?_, ?_, ?_⟩
  · rw [hPlen]
    omega
  · omega
  · intro i hi
    rw [hPlen] at hi
    exact hbP i hi
  · intro i j hi hj hij
    rw [hPlen] at hi hj
    by_cases hie : i = index
    · have hje : j ≠ index := fun h => hij (hie.trans h.symm)
      rw [hie, hPgetIdx, hPgetNe j hj hje, hflen, htgtv]
      have hb := hbnd j hj
      by_cases hz : newLen = 0
      · simp only [hz, if_true, ite_true]
        have := (hbP j hj).1
        rw [hPgetNe j hj hje] at this
        left
        omega
      · simp only [hz, if_false, ite_false]
        by_cases hsh : (s.pointers.getD j ⟨0, 0⟩).offset ≤ o
        · have hfo := hfoff _ hb.1
          rw [if_pos hsh] at hfo
          have hend := hshiftb j hj hje hsh
          right
          omega
        · have hfo := hfoff _ hb.1
          rw [if_neg hsh] at hfo
          have hnext := hunshiftb j hj hje hsh
          left
          omega
    · by_cases hje : j = index
      · rw [hje, hPgetIdx, hPgetNe i hi hie, hflen, htgtv]
        have hb := hbnd i hi
        by_cases hz : newLen = 0
        · simp only [hz, if_true, ite_true]
          have := (hbP i hi).1
          rw [hPgetNe i hi hie] at this
          right
          omega
        · simp only [hz, if_false, ite_false]
          by_cases hsh : (s.pointers.getD i ⟨0, 0⟩).offset ≤ o
          · have hfo := hfoff _ hb.1
            rw [if_pos hsh] at hfo
            have hend := hshiftb i hi hie hsh
            left
            omega
          · have hfo := hfoff _ hb.1
            rw [if_neg hsh] at hfo
            have hnext := hunshiftb i hi hie hsh
            right
            omega
      · rw [hPgetNe i hi hie, hPgetNe j hj hje, hflen, hflen]
        have hbi := hbnd i hi
        have hbj := hbnd j hj
        have hoij := hord i j hi hj hij
        by_cases hshi : (s.pointers.getD i ⟨0, 0⟩).offset ≤ o <;>
          by_cases hshj : (s.pointers.getD j ⟨0, 0⟩).offset ≤ o
        · have hfoi := hfoff _ hbi.1
          rw [if_pos hshi] at hfoi
          have hfoj := hfoff _ hbj.1
          rw [if_pos hshj] at hfoj
          omega
        · have hfoi := hfoff _ hbi.1
          rw [if_pos hshi] at hfoi
          have hfoj := hfoff _ hbj.1
          rw [if_neg hshj] at hfoj
          have hendi := hshiftb i hi hie hshi
          have hnextj := hunshiftb j hj hje hshj
          omega
        · have hfoi := hfoff _ hbi.1
          rw [if_neg hshi] at hfoi
          have hfoj := hfoff _ hbj.1
          rw [if_pos hshj] at hfoj
          have hendj := hshiftb j hj hje hshj
          have hnexti := hunshiftb i hi hie hshi
          omega
        · have hfoi := hfoff _ hbi.1
          rw [if_neg hshi] at hfoi
          have hfoj := hfoff _ hbj.1
          rw [if_neg hshj] at hfoj
          omega

/-- `realloc` never changes the number of slots. -/
theorem realloc_length (s : Slotted) (index newLen : Nat) :
    (s.realloc index newLen).2.pointers.length = s.pointers.length := by
  unfold realloc
  by_cases h1 : ((newLen : Int) - ((s.pointers.getD index ⟨0, 0⟩).len : Int)) = 0
  · rw [if_pos h1]
  · rw [if_neg h1]
    by_cases h2 : 0 < ((newLen : Int) - ((s.pointers.getD index ⟨0, 0⟩).len : Int)) ∧
        ((s.freeSpace : Int) < (newLen : Int) - ((s.pointers.getD index ⟨0, 0⟩).len : Int))
    · rw [if_pos h2]
    · rw [if_neg h2]
      simp

/-- `realloc(index, 0)` leaves slot `index` with length 0. -/
theorem realloc_zero_len (s : Slotted) (index : Nat) (hidx : index < s.pointers.length) :
    ((s.realloc index 0).2.pointers.getD index ⟨0, 0⟩).len = 0 := by
  unfold realloc
  by_cases h1 : (((0 : Nat) : Int) - ((s.pointers.getD index ⟨0, 0⟩).len : Int)) = 0
  · rw [if_pos h1]
    dsimp only
    omega
  · rw [if_neg h1]
    have h2 : ¬ (0 < (((0 : Nat) : Int) - ((s.pointers.getD index ⟨0, 0⟩).len : Int)) ∧
        ((s.freeSpace : Int) < ((0 : Nat) : Int) - ((s.pointers.getD index ⟨0, 0⟩).len : Int))) := by
      intro h
      omega
    rw [if_neg h2]
    dsimp only
    rw [getD_set_self]
    simpa using hidx

/-- `delete` preserves the invariant. -/
theorem delete_WF (s : Slotted) (index : Nat) (hWF : s.WF) (hidx : index < s.pointers.length) :
    (s.delete index).WF := by
  have h1 : ((s.realloc index 0).2).WF := realloc_WF s index 0 hWF hidx (Or.inl rfl)
  have hlen1 : (s.realloc index 0).2.pointers.length = s.pointers.length :=
    realloc_length s index 0
  have hzlen : ((s.realloc index 0).2.pointers.getD index ⟨0, 0⟩).len = 0 :=
    realloc_zero_len s index hidx
  rw [WF_iff] at h1
  obtain ⟨hcap, h4N, hFC, hbnd, hord⟩ := h1
  unfold delete
  rw [WF_iff]
  dsimp only
  have hM : ((List.range ((s.realloc index 0).2.pointers.length - 1)).map fun p =>
      if p ≤ index then (s.realloc index 0).2.pointers.getD p ⟨0, 0⟩
      else (s.realloc index 0).2.pointers.getD (p - 1) ⟨0, 0⟩).length =
        (s.realloc index 0).2.pointers.length - 1 := by
    simp
  rw [hM]
  have hget : ∀ p, p < (s.realloc index 0).2.pointers.length - 1 →
      ((List.range ((s.realloc index 0).2.pointers.length - 1)).map fun p =>
        if p ≤ index then (s.realloc index 0).2.pointers.getD p ⟨0, 0⟩
        else (s.realloc index 0).2.pointers.getD (p - 1) ⟨0, 0⟩).getD p ⟨0, 0⟩ =
          if p ≤ index then (s.realloc index 0).2.pointers.getD p ⟨0, 0⟩
          else (s.realloc index 0).2.pointers.getD (p - 1) ⟨0, 0⟩ := by
    intro p hp
    exact getD_range_map _ _ _ _ hp
  refine ⟨hcap, by omega, hFC, ?_, ?_⟩
  · intro i hi
    rw [hget i hi]
    by_cases h : i ≤ index
    · rw [if_pos h]
      exact hbnd i (by omega)
    · rw [if_neg h]
      exact hbnd (i - 1) (by omega)
  · intro i j hi hj hij
    rw [hget i hi, hget j hj]
    by_cases h1 : i ≤ index <;> by_cases h2 : j ≤ index
    · rw [if_pos h1, if_pos h2]
      exact hord i j (by omega) (by omega) hij
    · rw [if_pos h1, if_neg h2]
      by_cases he : i = j - 1
      · rw [← he]
        have hiidx : i = index := by omega
        rw [hiidx]
        left
        rw [hzlen]
        omega
      · exact hord i (j - 1) (by omega) (by omega) (by omega)
    · rw [if_neg h1, if_pos h2]
      by_cases he : j = i - 1
      · rw [← he]
        have hjidx : j = index := by omega
        rw [hjidx]
        left
        rw [hzlen]
        omega
      · exact hord (i - 1) j (by omega) (by omega) (by omega)
    · rw [if_neg h1, if_neg h2]
      exact hord (i - 1) (j - 1) (by omega) (by omega) (by omega)

/-- Every admissible, safe operation preserves the invariant; an inadmissible
one has no successor state (modelled as the identity). -/
theorem applyOp_WF (s : Slotted) (op : Slotted.Op) (hWF : s.WF) (hsafe : s.OpSafe op) :
    (s.applyOp op).WF := by
  unfold applyOp
  by_cases hadm : op.admissible s
  · rw [if_pos hadm]
    cases op with
    | allocate index len =>
      have h : index ≤ s.pointers.length := by
        have := hadm
        simp [Op.admissible, numSlots] at this
        exact this.1
      exact allocate_WF s index len hWF h
    | realloc index newLen =>
      have h : index < s.pointers.length := by
        have := hadm
        simp [Op.admissible, numSlots] at this
        exact this.1
      exact realloc_WF s index newLen hWF h hsafe
    | delete index =>
      have h : index < s.pointers.length := by
        have := hadm
        simpa [Op.admissible, numSlots] using this
      exact delete_WF s index hWF h
    | reverse => exact reverse_WF s hWF
    | writeSlot index bytes => exact writeSlot_WF s index bytes hWF
  · rw [if_neg hadm]
    exact hWF

/-- The invariant holds at every state reachable by safe operations. -/
theorem SafeReach_WF {s t : Slotted} (h : Slotted.SafeReach s t) (hs : s.WF) : t.WF := by
  induction h with
  | refl => exact hs
  | step op _ hsafe ih => exact applyOp_WF _ op ih hsafe

end Slotted

/-- C5, counterexample: the claimed well-formedness does not hold for every
operation sequence.  After `initialize(); allocate(0,10); allocate(0,0);
realloc(0,5)` on a 100-byte payload, slot 0 occupies `[85,90)` and slot 1
claims `[85,95)`: the two ranges overlap at byte 85 (the `realloc` shifted
slot 1's pointer by the length delta although slot 1's bytes lie above the
grown zero-length slot). -/
theorem claim_C5_counterexample : ¬ Slotted.Inv slottedBad := by
  intro h
  have h3 := h.2.2 0 1 (by decide) (by decide) (by decide) 85 (by decide)
  exact h3 (by decide)

/-- C5, amended: for every operation sequence in which `realloc` never grows
a slot of length 0, every state reachable from `initialize()` satisfies the
claimed invariant: `free_space_offset` is at least the end of the slot
directory, every slot's byte range lies within
`[free_space_offset, capacity)`, and the ranges of distinct slots are
pairwise disjoint.  (The capacity bound keeps the source's 16-bit arithmetic
exact; every real page is far smaller.) -/
theorem claim_C5_slotted_well_formedness (s t : Slotted) (hcap : s.capacity < 2 ^ 15)
    (hreach : Slotted.SafeReach s.initState t) : t.Inv :=
  (Slotted.SafeReach_WF hreach (Slotted.initState_WF s hcap)).toInv

/-- Witness for the amended C5: a concrete safe sequence (insert, insert,
in-place write, resize, delete of a middle slot, reverse) on a 100-byte page
ends in a state satisfying the invariant. -/
theorem claim_C5_slotted_well_formedness_witness :
    Slotted.Inv (((((slottedDemo.initState.applyOp (.allocate 0 10)).applyOp
        (.allocate 1 20)).applyOp (.writeSlot 0 [1, 2, 3, 4])).applyOp
        (.realloc 0 7)).applyOp (.delete 0)) :=
  claim_C5_slotted_well_formedness slottedDemo _ (by decide)
    (.step _ (.step _ (.step _ (.step _ (.step _ (.refl _)
      (by decide)) (by decide)) (by decide)) (by decide)) (by decide))

/-- C6: `allocate(index, len)` returns `false` exactly when
`free_space() < len + size_of::<Pointer>()`, and `realloc(index, new_len)`
returns `false` exactly when `new_len` exceeds the slot's current length by
more than `free_space()`; whenever either returns `false` the page state is
completely unchanged. -/
theorem claim_C6_failure_semantics (s : Slotted) (index len jdx newLen : Nat)
    (hidx : index ≤ s.numSlots) (hjdx : jdx < s.numSlots) :
    ((s.allocate index len).1 = false ↔ s.freeSpace < len + pointerSize) ∧
    ((s.allocate index len).1 = false → (s.allocate index len).2 = s) ∧
    ((s.realloc jdx newLen).1 = false ↔
      (s.pointers.getD jdx ⟨0, 0⟩).len < newLen ∧
        s.freeSpace < newLen - (s.pointers.getD jdx ⟨0, 0⟩).len) ∧
    ((s.realloc jdx newLen).1 = false → (s.realloc jdx newLen).2 = s) := by
  refine ⟨?_, ?_, ?_, ?_⟩
  · unfold Slotted.allocate
    by_cases h : s.freeSpace < len + pointerSize
    · simp [h]
    · simp [h]
  · intro h
    unfold Slotted.allocate at h ⊢
    by_cases h' : s.freeSpace < len + pointerSize
    · rw [if_pos h']
    · rw [if_neg h'] at h
      exact absurd h (by simp)
  · unfold Slotted.realloc
    by_cases h1 : ((newLen : Int) - ((s.pointers.getD jdx ⟨0, 0⟩).len : Int)) = 0
    · rw [if_pos h1]
      constructor
      · intro h
        exact absurd h (by simp)
      · intro h
        omega
    · rw [if_neg h1]
      by_cases h2 : 0 < ((newLen : Int) - ((s.pointers.getD jdx ⟨0, 0⟩).len : Int)) ∧
          ((s.freeSpace : Int) < (newLen : Int) - ((s.pointers.getD jdx ⟨0, 0⟩).len : Int))
      · rw [if_pos h2]
        constructor
        · intro _
          omega
        · intro _
          rfl
      · rw [if_neg h2]
        constructor
        · intro h
          exact absurd h (by simp)
        · intro h
          rw [not_and_or] at h2
          rcases h2 with h2 | h2 <;> omega
  · intro h
    unfold Slotted.realloc at h ⊢
    by_cases h1 : ((newLen : Int) - ((s.pointers.getD jdx ⟨0, 0⟩).len : Int)) = 0
    · rw [if_pos h1] at h
      exact absurd h (by simp)
    · rw [if_neg h1] at h ⊢
      by_cases h2 : 0 < ((newLen : Int) - ((s.pointers.getD jdx ⟨0, 0⟩).len : Int)) ∧
          ((s.freeSpace : Int) < (newLen : Int) - ((s.pointers.getD jdx ⟨0, 0⟩).len : Int))
      · rw [if_pos h2]
      · rw [if_neg h2] at h
        exact absurd h (by simp)

/-- Witness for C6: on a page with `free_space() = 4`, `allocate(0, 10)` and
`realloc(0, 20)` both fail, and the theorem applies. -/
theorem claim_C6_failure_semantics_witness :
    ((slottedTight.allocate 0 10).1 = false ↔
      slottedTight.freeSpace < 10 + pointerSize) ∧
    ((slottedTight.allocate 0 10).1 = false → (slottedTight.allocate 0 10).2 = slottedTight) ∧
    ((slottedTight.realloc 0 20).1 = false ↔
      (slottedTight.pointers.getD 0 ⟨0, 0⟩).len < 20 ∧
        slottedTight.freeSpace < 20 - (slottedTight.pointers.getD 0 ⟨0, 0⟩).len) ∧
    ((slottedTight.realloc 0 20).1 = false → (slottedTight.realloc 0 20).2 = slottedTight) :=
  claim_C6_failure_semantics slottedTight 0 10 0 20 (by decide) (by decide)

/-! ## Branch `find`: binary-search correctness (C8), split defect (C2) -/

/-- Loop invariant of the branchless binary search in `Branch::find`:
starting from `base = 1`, `size = num_pairs - 1`, the loop maintains that the
final answer lies at `base` (or is 0) and that all keys at indices at or
beyond `base + size` are greater than the probe. -/
theorem Branch.findLoop_spec (b : Branch) (key : Nat) :
    ∀ (fuel base size : Nat), size ≤ fuel → 1 ≤ base → base + size ≤ b.numPairs → 1 ≤ size →
    (∀ i j, 1 ≤ i → i < j → j < b.numPairs → b.pairKey i < b.pairKey j) →
    (b.pairKey base ≤ key ∨ base = 1) →
    (∀ j, base + size ≤ j → j < b.numPairs → key < b.pairKey j) →
    1 ≤ b.findLoop key fuel base size ∧
      b.findLoop key fuel base size + 1 ≤ b.numPairs ∧
      (b.pairKey (b.findLoop key fuel base size) ≤ key ∨ b.findLoop key fuel base size = 1) ∧
      (∀ j, b.findLoop key fuel base size < j → j < b.numPairs → key < b.pairKey j) := by
  intro fuel
  induction fuel with
  | zero =>
    intro base size hfuel hbase hbs hsz hsort hleft hright
    omega
  | succ fuel ih =>
    intro base size hfuel hbase hbs hsz hsort hleft hright
    unfold findLoop
    by_cases h1 : size ≤ 1
    · rw [if_pos h1]
      have hs1 : size = 1 := by omega
      refine ⟨hbase, by omega, hleft, ?_⟩
      intro j hj hjn
      exact hright j (by omega) hjn
    · rw [if_neg h1]
      dsimp only
      by_cases hc : key < b.pairKey (base + size / 2)
      · rw [if_pos hc]
        apply ih
        · omega
        · omega
        · omega
        · omega
        · exact hsort
        · exact hleft
        · intro j hj hjn
          rcases Nat.lt_or_ge j (base + size) with hj2 | hj2
          · have hjm : base + size / 2 ≤ j := by omega
            rcases Nat.eq_or_lt_of_le hjm with he | hlt
            · rw [← he]
              exact hc
            · exact lt_trans hc (hsort (base + size / 2) j (by omega) (by omega) hjn)
          · exact hright j hj2 hjn
      · rw [if_neg hc]
        apply ih
        · omega
        · omega
        · omega
        · omega
        · exact hsort
        · left
          omega
        · intro j hj hjn
          exact hright j (by omega) hjn

/-- C8: on a branch with at least two pairs whose keys at indices
`1..num_pairs` are strictly increasing, `find(key)` returns the largest index
`i < num_pairs` with `pairs[i].key ≤ key`, treating pair 0's key as `−∞`
(in particular 0 when `key < pairs[1].key`). -/
theorem claim_C8_branch_find (b : Branch) (key : Nat) (h2 : 2 ≤ b.numPairs)
    (hsorted : ∀ j, j < b.numPairs → ∀ i, i < j → 1 ≤ i → b.pairKey i < b.pairKey j) :
    b.find key < b.numPairs ∧
    (b.find key = 0 ∨ b.pairKey (b.find key) ≤ key) ∧
    (∀ j, b.find key < j → j < b.numPairs → key < b.pairKey j) := by
  have hsort : ∀ i j, 1 ≤ i → i < j → j < b.numPairs → b.pairKey i < b.pairKey j :=
    fun i j h1 hij hjn => hsorted j hjn i hij h1
  have hspec := b.findLoop_spec key (b.numPairs - 1) 1 (b.numPairs - 1)
    (le_refl _) (le_refl _) (by omega) (by omega) hsort (Or.inr rfl)
    (fun j hj hjn => absurd hjn (by omega))
  obtain ⟨hr1, hrn, hrk, hrgt⟩ := hspec
  have hfind : b.find key =
      (if b.pairKey (b.findLoop key (b.numPairs - 1) 1 (b.numPairs - 1)) = key then
        b.findLoop key (b.numPairs - 1) 1 (b.numPairs - 1)
      else if key < b.pairKey (b.findLoop key (b.numPairs - 1) 1 (b.numPairs - 1)) then
        b.findLoop key (b.numPairs - 1) 1 (b.numPairs - 1) - 1
      else b.findLoop key (b.numPairs - 1) 1 (b.numPairs - 1)) := rfl
  by_cases he : b.pairKey (b.findLoop key (b.numPairs - 1) 1 (b.numPairs - 1)) = key
  · have hv : b.find key = b.findLoop key (b.numPairs - 1) 1 (b.numPairs - 1) := by
      rw [hfind, if_pos he]
    rw [hv]
    exact ⟨by omega, Or.inr (le_of_eq he), hrgt⟩
  · by_cases hgt : key < b.pairKey (b.findLoop key (b.numPairs - 1) 1 (b.numPairs - 1))
    · have hb1 : b.findLoop key (b.numPairs - 1) 1 (b.numPairs - 1) = 1 := by
        rcases hrk with h | h
        · exact absurd h (by omega)
        · exact h
      have hv : b.find key = 0 := by
        rw [hfind, if_neg he, if_pos hgt, hb1]
      rw [hv]
      refine ⟨by omega, Or.inl rfl, ?_⟩
      intro j hj hjn
      rcases Nat.eq_or_lt_of_le hj with hj1 | hj1
      · have hj1' : j = 1 := by omega
        rw [hj1', ← hb1]
        exact hgt
      · exact hrgt j (by omega) hjn
    · have hv : b.find key = b.findLoop key (b.numPairs - 1) 1 (b.numPairs - 1) := by
        rw [hfind, if_neg he, if_neg hgt]
      rw [hv]
      exact ⟨by omega, Or.inr (by omega), hrgt⟩

/-- Witness for C8: the branch of the source's `test_insert_find` and probe
key 6 (between separators 5 and 8). -/
theorem claim_C8_branch_find_witness :
    brDemo.find 6 < brDemo.numPairs ∧
    (brDemo.find 6 = 0 ∨ brDemo.pairKey (brDemo.find 6) ≤ 6) ∧
    (∀ j, brDemo.find 6 < j → j < brDemo.numPairs → 6 < brDemo.pairKey j) :=
  claim_C8_branch_find brDemo 6 (by decide) (by decide)

/-- C2, evaluated at the failing input (the branch of the source's own
`test_split`): `split` promotes key 8 but sets the left half's `num_pairs` to
`mid − 1 = 1`, dropping the pair `(5, child 2)` entirely — the two halves
together no longer contain all the original keys and child pointers (child 2
is gone), contradicting the split-correctness claim. -/
theorem claim_C2_branch_split_loses_pair :
    (5, 2) ∈ brDemo.pairs ∧
    brDemo.split 100 =
      ({ payloadLen := 100, pairs := [(0, 1)] },
       { payloadLen := 100, pairs := [(8, 3), (11, 4)] }, 8) ∧
    (∀ p ∈ (brDemo.split 100).1.pairs ++ (brDemo.split 100).2.1.pairs, p.2 ≠ 2) := by
  decide

/-! ## DiskManager (C9), Executor DeleteItem (C4) -/

/-- C9, counterexample: a file of 4097 bytes — not a multiple of
`PAGE_SIZE = 4096` — is accepted by `DiskManager::new`/`open` (which merely
floor-divides), not rejected with an error. -/
theorem claim_C9_counterexample :
    DiskManager.new 4097 = .ok { nextPageId := 1 } ∧ 4097 % PAGE_SIZE ≠ 0 := by
  constructor
  · rfl
  · decide

/-- C9, amended: `DiskManager::new` (and hence `open`) accepts a file of any
size and computes `next_page_id = file_size / PAGE_SIZE`, ignoring any
trailing partial page; no size check is performed. -/
theorem claim_C9_open_no_size_check (fileSize : Nat) :
    DiskManager.new fileSize = .ok { nextPageId := fileSize / PAGE_SIZE } := rfl

/-- C4, evaluated at the failing input: for every `DeleteItem` request,
`Executor::execute` does not return an error response — it panics (the
`todo!()` in `delete_item` unwinds with "not yet implemented" before the
error classification can build an `Error/Other` response), so the handling
thread dies and no response line is written. -/
theorem claim_C4_delete_item_panics (h : ExecutorHandlers) (input : DeleteItemInput) :
    Executor.execute h (.deleteItem input) = .panicked "not yet implemented" := rfl

/-! ## BTree insert: errors leave the store untouched (C3) -/

/-- No error exit of `put_internal` — `Deadlock` from the sibling try-latch
included — mutates any page: the returned store is the input store.  (The
`Deadlock` exit happens before the new page is created and before any
pointer, record, or header is written; in the branch case an error from the
child propagates before `insert`/`split` run.) -/
theorem putInternal_error_unchanged :
    ∀ (fuel : Nat) (s : Store) (pid key : Nat) (value : List Nat) (latchOk : Bool) (e : BErr),
    (putInternal key value latchOk fuel s pid).2 = .error e →
    (putInternal key value latchOk fuel s pid).1 = s := by
  intro fuel
  induction fuel with
  | zero =>
    intro s pid key value latchOk e _
    rfl
  | succ fuel ih =>
    intro s pid key value latchOk e h
    unfold putInternal at h ⊢
    cases hpg : s.pages pid with
    | none => rfl
    | some pg =>
      rw [hpg] at h
      cases pg with
      | meta root => rfl
      | node n =>
        cases n with
        | leaf lf =>
          dsimp only at h ⊢
          by_cases hput : (lf.put key value).1
          · rw [if_pos hput] at h
            exact absurd h (by simp)
          · rw [if_neg hput] at h ⊢
            cases hnext : lf.nextPageId with
            | none =>
              rw [hnext] at h
              exact absurd h (by simp)
            | some nid =>
              rw [hnext] at h
              dsimp only at h ⊢
              cases hn : s.pages nid with
              | none => rfl
              | some npg =>
                rw [hn] at h
                cases npg with
                | meta r => rfl
                | node nn =>
                  cases nn with
                  | leaf nlf =>
                    dsimp only at h ⊢
                    by_cases hlo : ¬ latchOk
                    · simp only [hlo, if_true, ite_true]
                      rfl
                    · rw [if_neg (by simpa using hlo)] at h
                      exact absurd h (by simp)
                  | branch nb => rfl
        | branch b =>
          dsimp only at h ⊢
          split at h
          · rename_i e' heq
            dsimp only
            exact ih s (b.pairChild (b.find key)) key value latchOk e' heq
          · simp at h
          · split at h <;> simp at h

/-- C3: whenever `Access::put` returns `Err(Deadlock)` — in particular when
the leaf is full and the non-blocking exclusive latch on its right sibling
cannot be acquired — the whole insert aborts with no page of the tree
mutated: every leaf, branch, and the tree header page are exactly as before
the put began (the page store is unchanged). -/
theorem claim_C3_deadlock_no_mutation (s : Store) (btreePageId key : Nat)
    (value : List Nat) (latchOk : Bool) (fuel : Nat)
    (hdl : (Access.put s btreePageId key value latchOk fuel).2 = .error .deadlock) :
    (Access.put s btreePageId key value latchOk fuel).1 = s := by
  unfold Access.put at hdl ⊢
  cases hpg : s.pages btreePageId with
  | none => rfl
  | some pg =>
    rw [hpg] at hdl
    cases pg with
    | meta root =>
      dsimp only at hdl ⊢
      split at hdl
      · rename_i e' heq
        dsimp only
        exact putInternal_error_unchanged fuel s root key value latchOk e' heq
      · simp at hdl
      · simp at hdl
    | node n => rfl

/-- Witness for C3: on the concrete two-leaf tree whose root leaf is full,
inserting key 25 with the sibling latch unavailable returns `Deadlock`, and
the store is returned unchanged. -/
theorem claim_C3_deadlock_no_mutation_witness :
    (Access.put c3Store 0 25 [7] false 20).2 = .error .deadlock ∧
    (Access.put c3Store 0 25 [7] false 20).1 = c3Store :=
  ⟨by decide, claim_C3_deadlock_no_mutation c3Store 0 25 [7] false 20 (by decide)⟩

/-! ## Round trip through a full root branch (C1), buffer append (C10) -/

set_option maxRecDepth 4000

/-- C1, evaluated at the failing input: on the concrete well-formed tree
`c1Store` (full root branch over five full leaves),
`put(13, [9,…,9])` succeeds — leaf 11 splits, the new separator/child pair
is inserted at branch index 2, the branch splits dropping the pair at index
`mid − 1 = 2` (the freshly created leaf!), and the root grows — but the
subsequent `get(13)` returns `false`: the inserted key is unreachable, so
put-then-get does not round-trip. -/
theorem claim_C1_round_trip_fails :
    (Access.put c1Store 0 13 (List.replicate 8 9) true 5).2 = .ok () ∧
    Access.get (Access.put c1Store 0 13 (List.replicate 8 9) true 5).1 0 13 [] 5 =
      .ok (false, []) := by
  constructor
  · decide
  · decide

/-- C7, evaluated at a failing input: `c7Store` is built from the empty tree
by 13 puts of keys 1…13, all returning `Ok` (first conjunct).  Full scans in
both directions yield all thirteen keys, so key 9 is stored, and the forward
iterator from `Some 9` duly starts at 9.  But the backward iterator from
`Some 9` yields `[8, 7, …, 1]`: it does not start at the largest stored key
`≤ 9` (which is 9 itself, present in the tree) — the branch split inside one
of the puts dropped the separator pair for the leaf that holds 9, so the
descent lands one leaf too far left.  Scan resumption as claimed therefore
fails on a tree built by successful puts. -/
theorem claim_C7_scan_resumption_fails :
    putSeqOk c7Empty c7Keys = true ∧
    scanKeys c7Store none = .ok [1, 2, 3, 4, 5, 6, 7, 8, 9, 10, 11, 12, 13] ∧
    scanKeysRev c7Store none = .ok [13, 12, 11, 10, 9, 8, 7, 6, 5, 4, 3, 2, 1] ∧
    scanKeys c7Store (some 9) = .ok [9, 10, 11, 12, 13] ∧
    scanKeysRev c7Store (some 9) = .ok [8, 7, 6, 5, 4, 3, 2, 1] :=
  ⟨by decide, by decide, by decide, by decide, by decide⟩

/-- `get_internal` only ever appends to the caller's buffer: on success the
output is the input buffer followed by a tail (the found value), and on a
miss (`Ok(false)`) the tail is empty, so the buffer comes back exactly
unchanged. -/
theorem getInternal_appends :
    ∀ (fuel : Nat) (s : Store) (pid key : Nat) (buf : List Nat) (b : Bool) (out : List Nat),
    getInternal s key buf fuel pid = .ok (b, out) →
    ∃ tail, out = buf ++ tail ∧ (b = false → tail = []) := by
  intro fuel
  induction fuel with
  | zero =>
    intro s pid key buf b out h
    exact absurd h (by simp [getInternal])
  | succ fuel ih =>
    intro s pid key buf b out h
    unfold getInternal at h
    cases hpg : s.pages pid with
    | none =>
      rw [hpg] at h
      exact absurd h (by simp)
    | some pg =>
      rw [hpg] at h
      cases pg with
      | meta root => exact absurd h (by simp)
      | node n =>
        cases n with
        | leaf lf =>
          dsimp only at h
          cases hget : lf.get key with
          | some v =>
            rw [hget] at h
            refine ⟨v, ?_, ?_⟩
            · have := (Except.ok.injEq _ _).mp h
              rw [← (Prod.mk.injEq _ _ _ _).mp this |>.2]
            · intro hb
              have := (Except.ok.injEq _ _).mp h
              have hb' := (Prod.mk.injEq _ _ _ _).mp this |>.1
              rw [← hb'] at hb
              exact absurd hb (by simp)
          | none =>
            rw [hget] at h
            have := (Except.ok.injEq _ _).mp h
            refine ⟨[], ?_, fun _ => rfl⟩
            rw [← (Prod.mk.injEq _ _ _ _).mp this |>.2]
            simp
        | branch b' =>
          dsimp only at h
          exact ih s (b'.pairChild (b'.find key)) key buf b out h

/-- C10: `Access::get(key, buf)` appends the found value to the
caller-supplied buffer without clearing it first — whatever bytes `buf`
already held are preserved as a prefix of the result — and when the lookup
misses (`Ok(false)`) the buffer is returned exactly unchanged. -/
theorem claim_C10_get_appends (s : Store) (btreePageId key : Nat) (buf : List Nat)
    (fuel : Nat) (b : Bool) (out : List Nat)
    (h : Access.get s btreePageId key buf fuel = .ok (b, out)) :
    ∃ tail, out = buf ++ tail ∧ (b = false → out = buf) := by
  unfold Access.get at h
  cases hpg : s.pages btreePageId with
  | none =>
    rw [hpg] at h
    exact absurd h (by simp)
  | some pg =>
    rw [hpg] at h
    cases pg with
    | meta root =>
      obtain ⟨tail, h1, h2⟩ := getInternal_appends fuel s root key buf b out h
      refine ⟨tail, h1, fun hb => ?_⟩
      rw [h1, h2 hb]
      simp
    | node n => exact absurd h (by simp)

/-- Witness for C10: on the one-leaf tree `c10Store`, a `get` of the present
key 5 with a non-empty buffer `[1]` returns `(true, [1, 9])`. -/
theorem claim_C10_get_appends_witness :
    ∃ tail, ([1, 9] : List Nat) = [1] ++ tail ∧ (true = false → ([1, 9] : List Nat) = [1]) :=
  claim_C10_get_appends c10Store 0 5 [1] 3 true [1, 9] (by decide)

end QP
